import Mathlib

/-!
Shallow embedding of the masmide editor core (`src/ui/editor`): the buffer
model, UTF-8 cursor byte arithmetic, editing primitives, selection handling,
incremental search, and the undo/redo action log.

Rust strings are modelled as lists of characters (`Str`). Byte offsets are
tracked explicitly through each character's UTF-8 size: `strLen` is used
wherever the source takes `str::len()` (bytes) and `List.length` wherever the
source counts characters. Fallible byte slicing (`&s[b..]` off a character
boundary, which panics in Rust) is modelled with `Option` where a claim
depends on it.
-/

/-- A Rust `String` modelled as its list of characters. -/
abbrev Str := List Char

/-- Byte size of one character in UTF-8 (`char::len_utf8`). -/
def csize (c : Char) : Nat := c.utf8Size

/-- Byte length of a string (`str::len`). -/
def strLen (s : Str) : Nat := (s.map csize).sum

namespace CursorOps

/-- `CursorOps::clamp_to_char_boundary`: clamp the byte offset to the string
length, then step left to the nearest character boundary. -/
def clamp_to_char_boundary : Str → Nat → Nat
  | [], _ => 0
  | c :: s, idx =>
    if idx < csize c then 0 else csize c + clamp_to_char_boundary s (idx - csize c)

/-- Largest boundary strictly below an already-clamped boundary offset
(the loop body of `CursorOps::prev_char_boundary`). -/
def prevAux : Str → Nat → Nat
  | [], _ => 0
  | c :: s, idx => if idx ≤ csize c then 0 else csize c + prevAux s (idx - csize c)

/-- `CursorOps::prev_char_boundary`. -/
def prev_char_boundary (s : Str) (idx : Nat) : Nat :=
  prevAux s (clamp_to_char_boundary s idx)

/-- Step over the character starting at an already-clamped boundary offset
(the body of `CursorOps::next_char_boundary`). -/
def nextAux : Str → Nat → Nat
  | [], _ => 0
  | c :: s, idx => if idx = 0 then csize c else csize c + nextAux s (idx - csize c)

/-- `CursorOps::next_char_boundary`. -/
def next_char_boundary (s : Str) (idx : Nat) : Nat :=
  nextAux s (clamp_to_char_boundary s idx)

/-- Count the characters before an already-clamped byte offset
(the body of `CursorOps::char_index_at_byte`). -/
def charIdxAux : Str → Nat → Nat
  | [], _ => 0
  | c :: s, idx => if idx < csize c then 0 else 1 + charIdxAux s (idx - csize c)

/-- `CursorOps::char_index_at_byte`. -/
def char_index_at_byte (s : Str) (idx : Nat) : Nat :=
  charIdxAux s (clamp_to_char_boundary s idx)

/-- `CursorOps::byte_index_of_char`: byte offset of the given character
index, or the byte length when the index is past the end. -/
def byte_index_of_char : Str → Nat → Nat
  | _, 0 => 0
  | [], _ + 1 => 0
  | c :: s, n + 1 => csize c + byte_index_of_char s n

end CursorOps

/-- `&s[..b]` at a character boundary. Mid-character offsets floor to the
boundary below; every call site in the embedded operations clamps first,
mirroring the source. -/
def takeBytes : Str → Nat → Str
  | [], _ => []
  | c :: s, b => if csize c ≤ b then c :: takeBytes s (b - csize c) else []

/-- `&s[b..]` at a character boundary (same flooring convention). -/
def dropBytes : Str → Nat → Str
  | [], _ => []
  | c :: s, b => if csize c ≤ b then dropBytes s (b - csize c) else c :: s

/-- `String::insert` at a byte offset. -/
def insertAtByte (s : Str) (b : Nat) (c : Char) : Str :=
  takeBytes s b ++ c :: dropBytes s b

/-- `String::drain(lo..hi)` at byte offsets. -/
def drainBytes (s : Str) (lo hi : Nat) : Str :=
  takeBytes s lo ++ dropBytes s hi

/-- `&s[b..]` as a fallible operation: `none` models the Rust panic when the
offset is past the end or not a character boundary. Used by the search scan,
whose resumption offsets are not boundary-checked by the source. -/
def byteDrop : Str → Nat → Option Str
  | s, 0 => some s
  | [], _ + 1 => none
  | c :: s, b + 1 =>
    if csize c ≤ b + 1 then byteDrop s (b + 1 - csize c) else none

/-- The uppercase-to-lowercase table of the character-wise case mapping. -/
def lowerPairs : List (Char × Char) :=
  [('A', 'a'), ('B', 'b'), ('C', 'c'), ('D', 'd'), ('E', 'e'), ('F', 'f'),
   ('G', 'g'), ('H', 'h'), ('I', 'i'), ('J', 'j'), ('K', 'k'), ('L', 'l'),
   ('M', 'm'), ('N', 'n'), ('O', 'o'), ('P', 'p'), ('Q', 'q'), ('R', 'r'),
   ('S', 's'), ('T', 't'), ('U', 'u'), ('V', 'v'), ('W', 'w'), ('X', 'x'),
   ('Y', 'y'), ('Z', 'z')]

/-- Character lowercasing as used by `str::to_lowercase`. The embedding maps
each character independently and covers the ASCII range; the full Unicode
case tables are outside the model. -/
def lowerChar (c : Char) : Char :=
  match lowerPairs.find? (fun p => p.1 == c) with
  | some p => p.2
  | none => c

/-- `str::to_lowercase` under the character-wise model above. -/
def lowerStr (s : Str) : Str := s.map lowerChar

/-- `char::is_whitespace`, restricted to the ASCII whitespace characters the
editor's inputs use. -/
def isWs (c : Char) : Bool := c = ' ' || c = '\t' || c = '\n' || c = '\r'

/-- `str::trim`. -/
def trimStr (s : Str) : Str := ((s.dropWhile isWs).reverse.dropWhile isWs).reverse

/-- Leading whitespace of a line. -/
def leadingWs (s : Str) : Str := s.takeWhile isWs

/-- `clipboard::YankType`. -/
inductive YankType
  | Line
  | Char
deriving DecidableEq

/-- `undo::EditorAction`. -/
inductive EditorAction
  | InsertChar (line col : Nat) (ch : Char)
  | DeleteChar (line col : Nat) (ch : Char)
  | InsertLine (line_num : Nat) (content : Str)
  | DeleteLine (line_num : Nat) (content : Str)
  | ReplaceLine (line_num : Nat) (old new : Str)
  | SplitLine (line col : Nat)
  | JoinLines (line col : Nat) (deleted_content : Str)
  | InsertText (start_line start_col end_line end_col : Nat) (text : Str)
  | DeleteText (start_line start_col end_line end_col : Nat) (text : Str)
  | Batch (actions : List EditorAction)

/-- `undo::UndoStack`. The head of each list is the most recent entry (the
`VecDeque` back); trimming the oldest entries removes from the tail. -/
structure UndoStack where
  undo_stack : List EditorAction
  redo_stack : List EditorAction
  max_size : Nat

/-- `UndoStack::push`: record a new action, clear the redo history, and trim
the oldest entries beyond `max_size`. -/
def UndoStack.push (s : UndoStack) (a : EditorAction) : UndoStack :=
  { s with undo_stack := (a :: s.undo_stack).take s.max_size, redo_stack := [] }

/-- `buffer::Buffer`. The source also keeps a `ropey::Rope` mirror, but every
operation covered here reads and writes only the `lines` cache and rewrites
the rope wholesale from it (`sync_rope`), so the embedding keeps `lines` as
the single representation. File paths are abstract identifiers. -/
structure Buffer where
  lines : List Str
  cursor_x : Nat
  cursor_y : Nat
  scroll_offset : Nat
  file_path : Option Nat
  modified : Bool
  selection_start : Option (Nat × Nat)
  selection_end : Option (Nat × Nat)

/-- `Buffer::new`: one empty line. -/
def Buffer.new : Buffer :=
  { lines := [[]], cursor_x := 0, cursor_y := 0, scroll_offset := 0,
    file_path := none, modified := false, selection_start := none,
    selection_end := none }

instance : Inhabited Buffer := ⟨Buffer.new⟩

namespace CursorOps

/-- `CursorOps::set_cursor_x_char_boundary`. -/
def set_cursor_x_char_boundary (buf : Buffer) : Buffer :=
  if buf.cursor_y ≥ buf.lines.length then { buf with cursor_x := 0 }
  else
    { buf with
      cursor_x :=
        clamp_to_char_boundary (buf.lines.getD buf.cursor_y []) buf.cursor_x }

/-- `CursorOps::clamp_cursor_x`. -/
def clamp_cursor_x (buf : Buffer) : Buffer :=
  if buf.cursor_y ≥ buf.lines.length then { buf with cursor_x := 0 }
  else
    let line := buf.lines.getD buf.cursor_y []
    { buf with cursor_x := clamp_to_char_boundary line (min buf.cursor_x (strLen line)) }

/-- `CursorOps::move_up`. -/
def move_up (buf : Buffer) : Buffer :=
  if buf.cursor_y > 0 then clamp_cursor_x { buf with cursor_y := buf.cursor_y - 1 }
  else buf

/-- `CursorOps::move_down`. -/
def move_down (buf : Buffer) : Buffer :=
  if buf.cursor_y + 1 < buf.lines.length then
    clamp_cursor_x { buf with cursor_y := buf.cursor_y + 1 }
  else buf

end CursorOps

namespace EditOps

/-- `EditOps::calculate_indent`: the leading whitespace of the given line,
plus four spaces when the line (trimmed, lowercased) ends with `proc`,
`macro` or a colon, or starts with `.data` or `.code`. -/
def calculate_indent (line : Str) : Str :=
  let leading_ws := leadingWs line
  let trimmed := lowerStr (trimStr line)
  let increase_indent :=
    List.isSuffixOf (("proc").toList) trimmed ||
    List.isSuffixOf (("macro").toList) trimmed ||
    List.isSuffixOf [':'] trimmed ||
    List.isPrefixOf ((".data").toList) trimmed ||
    List.isPrefixOf ((".code").toList) trimmed
  if increase_indent then leading_ws ++ [' ', ' ', ' ', ' '] else leading_ws

end EditOps

/-- `editor::EditorState`, with the clipboard's internal state inlined (its
`yank_buffer` and `yank_type`; the optional system-clipboard handle is
external IO and outside the model). -/
structure EditorState where
  buffers : List Buffer
  active_buffer : Nat
  tab_size : Nat
  auto_indent : Bool
  search_query : Str
  search_matches : List (Nat × Nat)
  current_match : Nat
  undo_stack : UndoStack
  yank_buffer : Str
  yank_type : YankType
  jump_stack : List (Nat × Nat × Nat)

namespace EditorState

/-- `EditorState::buf`: the active buffer (indexing modelled totally; every
theorem keeps the index in range). -/
def buf (es : EditorState) : Buffer := es.buffers.getD es.active_buffer Buffer.new

/-- Write back the active buffer. -/
def setBuf (es : EditorState) (b : Buffer) : EditorState :=
  { es with buffers := es.buffers.set es.active_buffer b }

/-- `Clipboard::copy`: store into the internal yank buffer and record the
yank type (the mirror to a system clipboard service is external IO). -/
def clipboard_copy (es : EditorState) (text : Str) (ty : YankType) : EditorState :=
  { es with yank_buffer := text, yank_type := ty }

/-- `EditorState::clear_search`. -/
def clear_search (es : EditorState) : EditorState :=
  { es with search_query := [], search_matches := [], current_match := 0 }

/-- `EditorState::insert_char`. -/
def insert_char (es : EditorState) (c : Char) : EditorState :=
  let b := es.buf
  if b.cursor_y ≥ b.lines.length then es
  else
    let line := b.lines.getD b.cursor_y []
    let cx := CursorOps.clamp_to_char_boundary line b.cursor_x
    if cx > strLen line then es
    else
      let col_c := CursorOps.char_index_at_byte line cx
      let b2 := { b with
        lines := b.lines.set b.cursor_y (insertAtByte line cx c),
        cursor_x := cx + csize c, modified := true }
      let es2 := es.setBuf b2
      ({ es2 with
         undo_stack :=
          es2.undo_stack.push (.InsertChar b.cursor_y col_c c) }).clear_search

/-- `EditorState::insert_newline_with_indent`. -/
def insert_newline_with_indent (es : EditorState) (auto_indent : Bool) : EditorState :=
  let b := es.buf
  if b.cursor_y ≥ b.lines.length then es
  else
    let current_line := b.lines.getD b.cursor_y []
    let col_b := CursorOps.clamp_to_char_boundary current_line b.cursor_x
    let col_c := CursorOps.char_index_at_byte current_line col_b
    let remainder := dropBytes current_line col_b
    let kept := takeBytes current_line col_b
    let indent := if auto_indent then EditOps.calculate_indent kept else []
    let lines2 := (b.lines.set b.cursor_y kept).insertIdx (b.cursor_y + 1) (indent ++ remainder)
    let b2 := { b with
      lines := lines2, cursor_y := b.cursor_y + 1,
      cursor_x := strLen indent, modified := true }
    let es2 := es.setBuf b2
    ({ es2 with
       undo_stack :=
        es2.undo_stack.push (.SplitLine b.cursor_y col_c) }).clear_search

/-- `EditorState::insert_newline`. -/
def insert_newline (es : EditorState) : EditorState :=
  es.insert_newline_with_indent es.auto_indent

/-- `EditorState::backspace`. -/
def backspace (es : EditorState) : EditorState :=
  let b := es.buf
  if b.cursor_y ≥ b.lines.length then es.clear_search
  else if b.cursor_x > 0 then
    let line := b.lines.getD b.cursor_y []
    let cx := CursorOps.clamp_to_char_boundary line b.cursor_x
    let start := CursorOps.prev_char_boundary line cx
    if start = cx then (es.setBuf { b with cursor_x := cx }).clear_search
    else
      let ch := (dropBytes line start).headD ' '
      let col_char := CursorOps.char_index_at_byte line start
      let b2 := { b with
        lines := b.lines.set b.cursor_y (drainBytes line start cx),
        cursor_x := start, modified := true }
      let es2 := es.setBuf b2
      ({ es2 with
         undo_stack :=
          es2.undo_stack.push (.DeleteChar b.cursor_y col_char ch) }).clear_search
  else if b.cursor_y > 0 then
    let current_line := b.lines.getD b.cursor_y []
    let lines1 := b.lines.eraseIdx b.cursor_y
    let y2 := b.cursor_y - 1
    let joined := lines1.getD y2 [] ++ current_line
    let join_col_char := (lines1.getD y2 []).length
    let b2 := { b with
      lines := lines1.set y2 joined, cursor_y := y2,
      cursor_x := strLen joined, modified := true }
    let es2 := es.setBuf b2
    ({ es2 with
       undo_stack :=
        es2.undo_stack.push (.JoinLines (b.cursor_y - 1) join_col_char current_line) }).clear_search
  else es.clear_search

/-- `EditorState::delete_line`. -/
def delete_line (es : EditorState) : EditorState :=
  let b := es.buf
  let ln := b.cursor_y
  if b.lines.length > 1 then
    let content := b.lines.getD b.cursor_y []
    let lines1 := b.lines.eraseIdx b.cursor_y
    let y1 := if b.cursor_y ≥ lines1.length then lines1.length - 1 else b.cursor_y
    let b2 := CursorOps.clamp_cursor_x
      { b with lines := lines1, cursor_y := y1, modified := true }
    let es2 := (es.setBuf b2).clipboard_copy (content ++ ['\n']) YankType.Line
    ({ es2 with
       undo_stack :=
        es2.undo_stack.push (.DeleteLine ln content) }).clear_search
  else
    let content := b.lines.getD 0 []
    let b2 := { b with lines := b.lines.set 0 [], cursor_x := 0, modified := true }
    let es2 := (es.setBuf b2).clipboard_copy (content ++ ['\n']) YankType.Line
    let es3 :=
      if content = [] then es2
      else { es2 with
             undo_stack :=
              es2.undo_stack.push (.ReplaceLine ln content []) }
    es3.clear_search

/-- `EditorState::move_cursor_down`. -/
def move_cursor_down (es : EditorState) : EditorState :=
  es.setBuf (CursorOps.move_down es.buf)

/-- `EditorState::move_cursor_up`. -/
def move_cursor_up (es : EditorState) : EditorState :=
  es.setBuf (CursorOps.move_up es.buf)

end EditorState

namespace SelectionOps

/-- `SelectionOps::start_selection`. -/
def start_selection (buf : Buffer) : Buffer :=
  { buf with
    selection_start := some (buf.cursor_y, buf.cursor_x),
             selection_end := some (buf.cursor_y, buf.cursor_x) }

/-- `SelectionOps::update_selection`. -/
def update_selection (buf : Buffer) : Buffer :=
  if buf.selection_start.isSome then
    { buf with selection_end := some (buf.cursor_y, buf.cursor_x) }
  else buf

/-- `SelectionOps::clear_selection`. -/
def clear_selection (buf : Buffer) : Buffer :=
  { buf with selection_start := none, selection_end := none }

/-- `SelectionOps::get_selection_range`: normalize the two anchors so the
returned start is never after the end. -/
def get_selection_range (buf : Buffer) : Option ((Nat × Nat) × (Nat × Nat)) :=
  match buf.selection_start, buf.selection_end with
  | some s, some e =>
    some (if s.1 < e.1 ∨ (s.1 = e.1 ∧ s.2 ≤ e.2) then (s, e) else (e, s))
  | _, _ => none

/-- One item of the multi-line extraction loop in
`SelectionOps::extract_selection_text`. -/
def extractPiece (lines : List Str) (sl sc el ec idx : Nat) : Str :=
  let line := lines.getD idx []
  if idx = sl then dropBytes line (CursorOps.clamp_to_char_boundary line sc)
  else if idx = el then
    '\n' :: takeBytes line (CursorOps.clamp_to_char_boundary line ec)
  else '\n' :: line

/-- `SelectionOps::extract_selection_text`. The source's loop breaks at the
first index past the end of `lines`; because indices ascend, that equals
filtering the index range to in-range indices. -/
def extract_selection_text (buf : Buffer) (sl sc el ec : Nat) : Str :=
  if sl = el then
    if sl < buf.lines.length then
      let line := buf.lines.getD sl []
      let sb := CursorOps.clamp_to_char_boundary line sc
      let eb := CursorOps.clamp_to_char_boundary line ec
      takeBytes (dropBytes line sb) (eb - sb)
    else []
  else
    (((List.range' sl (el + 1 - sl)).filter (fun i => i < buf.lines.length)).map
      (extractPiece buf.lines sl sc el ec)).flatten

/-- The middle-line removal loop of `SelectionOps::delete_selection`:
`count` guarded removals at position `pos`. -/
def removeAtCount (pos : Nat) : List Str → Nat → List Str
  | lines, 0 => lines
  | lines, n + 1 =>
    removeAtCount pos (if pos < lines.length then lines.eraseIdx pos else lines) n

end SelectionOps

namespace EditorState

/-- `EditorState::start_selection`. -/
def start_selection (es : EditorState) : EditorState :=
  es.setBuf (SelectionOps.start_selection es.buf)

/-- `EditorState::update_selection`. -/
def update_selection (es : EditorState) : EditorState :=
  es.setBuf (SelectionOps.update_selection es.buf)

/-- `EditorState::clear_selection`. -/
def clear_selection (es : EditorState) : EditorState :=
  es.setBuf (SelectionOps.clear_selection es.buf)

/-- `SelectionOps::delete_selection`, lifted to `EditorState` (which passes
its active buffer, undo stack and clipboard). Returns the state and the
boolean the source returns. -/
def delete_selection (es : EditorState) : EditorState × Bool :=
  let b := es.buf
  match SelectionOps.get_selection_range b with
  | none => (es, false)
  | some ((sl, sc), (el, ec)) =>
    let text := SelectionOps.extract_selection_text b sl sc el ec
    let es1 := es.clipboard_copy text YankType.Char
    let b1 :=
      if sl = el then
        if sl < b.lines.length then
          let line := b.lines.getD sl []
          let sb := CursorOps.clamp_to_char_boundary line sc
          let eb := CursorOps.clamp_to_char_boundary line ec
          { b with
            lines := b.lines.set sl (drainBytes line sb eb),
            cursor_x := sb, cursor_y := sl, modified := true }
        else b
      else
        let sb := if sl < b.lines.length then
            CursorOps.clamp_to_char_boundary (b.lines.getD sl []) sc
          else 0
        let eb := if el < b.lines.length then
            CursorOps.clamp_to_char_boundary (b.lines.getD el []) ec
          else 0
        let lines1 := SelectionOps.removeAtCount (sl + 1) b.lines (el - (sl + 1))
        let lines2 :=
          if sl < lines1.length ∧ sl + 1 < lines1.length then
            let end_suffix := dropBytes (lines1.getD (sl + 1) []) eb
            let lines3 := lines1.eraseIdx (sl + 1)
            lines3.set sl (takeBytes (lines3.getD sl []) sb ++ end_suffix)
          else lines1
        { b with lines := lines2, cursor_x := sb, cursor_y := sl, modified := true }
    let es2 := es1.setBuf b1
    let es3 := { es2 with
                 undo_stack :=
        es2.undo_stack.push (.DeleteText sl sc el ec text) }
    (es3.setBuf (SelectionOps.clear_selection es3.buf), true)

end EditorState

/-- `str::find`: byte offset of the leftmost occurrence of `needle`. -/
def strFind (needle : Str) : Str → Option Nat
  | [] => if needle.isPrefixOf ([] : Str) then some 0 else none
  | c :: rest =>
    if needle.isPrefixOf (c :: rest) then some 0
    else (strFind needle rest).map (fun p => csize c + p)

/-- The per-line scan loop of `EditorState::search`: repeatedly `find` the
lowered query in `&line_lower[start..]`, record `start + pos`, and resume at
`start + pos + 1` — one byte past the match start, which permits overlapping
matches. `none` models the byte-slice panic when a resumption offset is not
a character boundary. The fuel argument only bounds the loop; for a
non-empty query at most `strLen lineLower + 1` iterations can occur, so the
fuel below never runs out on the paths the source can take. -/
def scanLineGo (lineLower qLower : Str) : Nat → Nat → Option (List Nat)
  | _, 0 => none
  | start, fuel + 1 =>
    match byteDrop lineLower start with
    | none => none
    | some tail =>
      match strFind qLower tail with
      | none => some []
      | some pos =>
        (scanLineGo lineLower qLower (start + pos + 1) fuel).map
          (fun ps => (start + pos) :: ps)

/-- All match byte offsets of one line of `EditorState::search`. -/
def scanLine (lineLower qLower : Str) : Option (List Nat) :=
  scanLineGo lineLower qLower 0 (strLen lineLower + 1)

/-- The line loop of `EditorState::search`. -/
def scanLines (qLower : Str) : List Str → Nat → Option (List (Nat × Nat))
  | [], _ => some []
  | l :: rest, i =>
    match scanLine (lowerStr l) qLower with
    | none => none
    | some ps =>
      match scanLines qLower rest (i + 1) with
      | none => none
      | some ms => some (ps.map (fun p => (i, p)) ++ ms)

namespace EditorState

/-- `EditorState::search`. The result is `none` when the scan would panic
(mid-character slicing); otherwise the state with the recomputed matches. -/
def search (es : EditorState) (query : Str) : Option EditorState :=
  let es1 := { es with
    search_query := query, search_matches := [], current_match := 0 }
  if query = [] then some es1
  else
    match scanLines (lowerStr query) es1.buf.lines 0 with
    | none => none
    | some ms => some { es1 with search_matches := ms }

/-- `EditorState::jump_to_current_match`. -/
def jump_to_current_match (es : EditorState) : EditorState :=
  match es.search_matches[es.current_match]? with
  | some m => es.setBuf { es.buf with cursor_y := m.1, cursor_x := m.2 }
  | none => es

/-- `EditorState::find_next`. -/
def find_next (es : EditorState) : EditorState :=
  if es.search_matches.isEmpty then es
  else
    ({ es with
        current_match := (es.current_match + 1) % es.search_matches.length }).jump_to_current_match

/-- `EditorState::find_prev`. -/
def find_prev (es : EditorState) : EditorState :=
  if es.search_matches.isEmpty then es
  else
    let cm := if es.current_match = 0 then es.search_matches.length - 1
              else es.current_match - 1
    ({ es with current_match := cm }).jump_to_current_match

end EditorState

/-- The middle-line insertion loop of `clipboard::redo_insert_text`:
insert the i-th middle line at `start_line + i`. -/
def insertMiddle (start_line : Nat) : List Str → List Str → Nat → List Str
  | lines, [], _ => lines
  | lines, m :: rest, i =>
    insertMiddle start_line (lines.insertIdx (start_line + i) m) rest (i + 1)

/-- `clipboard::undo_insert_text`: remove previously inserted text starting
at `(start_line, start_col)`, where `start_col` is a character index. The
source's unguarded byte slices fall back to boundary flooring here; no
covered claim depends on their panic behavior. -/
def undo_insert_text (buf : Buffer) (start_line start_col : Nat) (text : Str) : Buffer :=
  let tlines := text.splitOn '\n'
  if tlines.length = 1 then
    if start_line < buf.lines.length then
      let line := buf.lines.getD start_line []
      let start_byte := CursorOps.byte_index_of_char line start_col
      let end_byte := start_byte + strLen text
      if end_byte ≤ strLen line then
        { buf with
          lines := buf.lines.set start_line (drainBytes line start_byte end_byte),
          cursor_y := start_line, cursor_x := start_byte, modified := true }
      else buf
    else buf
  else
    let end_line := start_line + tlines.length - 1
    if end_line < buf.lines.length then
      let startLn := buf.lines.getD start_line []
      let pre :=
        if start_line < buf.lines.length then
          takeBytes startLn (CursorOps.byte_index_of_char startLn start_col)
        else []
      let last_line_len := strLen (tlines.getLastD [])
      let suf :=
        if end_line < buf.lines.length then
          dropBytes (buf.lines.getD end_line []) last_line_len
        else []
      let lines1 := SelectionOps.removeAtCount start_line buf.lines (end_line - start_line)
      let lines2 :=
        if start_line < lines1.length then lines1.set start_line (pre ++ suf)
        else lines1
      { buf with
        lines := lines2, cursor_y := start_line,
        cursor_x := CursorOps.byte_index_of_char (lines2.getD start_line []) start_col,
        modified := true }
    else buf

/-- `clipboard::redo_insert_text`: insert `text` at `(start_line, start_col)`
with `start_col` interpreted as a character index; text spanning newlines is
split across lines, joining the prefix and suffix of the target line. -/
def redo_insert_text (buf : Buffer) (start_line start_col : Nat) (text : Str) : Buffer :=
  let tlines := text.splitOn '\n'
  if tlines.length = 1 then
    if start_line < buf.lines.length then
      let line := buf.lines.getD start_line []
      let insert_pos := CursorOps.byte_index_of_char line start_col
      let line2 := takeBytes line insert_pos ++ text ++ dropBytes line insert_pos
      { buf with
        lines := buf.lines.set start_line line2,
        cursor_x := insert_pos + strLen text, cursor_y := start_line,
        modified := true }
    else buf
  else
    if start_line < buf.lines.length then
      let current := buf.lines.getD start_line []
      let insert_pos := CursorOps.byte_index_of_char current start_col
      let pre := takeBytes current insert_pos
      let suf := dropBytes current insert_pos
      let lines1 := buf.lines.set start_line (pre ++ tlines.headD [])
      let mids := (tlines.drop 1).take (tlines.length - 2)
      let lines2 := insertMiddle start_line lines1 mids 1
      let last := tlines.getLastD []
      let end_line := start_line + tlines.length - 1
      let lines3 := lines2.insertIdx end_line (last ++ suf)
      { buf with
        lines := lines3, cursor_y := end_line, cursor_x := strLen last,
        modified := true }
    else buf

mutual

/-- `EditorState::apply_undo_action`, acting on the active buffer. -/
def applyUndoAction (buf : Buffer) : EditorAction → Buffer
  | .InsertChar line col _ =>
    if line < buf.lines.length then
      let ln := buf.lines.getD line []
      let col_b := CursorOps.byte_index_of_char ln col
      if col_b < strLen ln then
        let e := CursorOps.next_char_boundary ln col_b
        { buf with
          lines := buf.lines.set line (drainBytes ln col_b e),
          cursor_y := line, cursor_x := col_b, modified := true }
      else buf
    else buf
  | .DeleteChar line col ch =>
    if line < buf.lines.length then
      let ln := buf.lines.getD line []
      let col_b := CursorOps.byte_index_of_char ln col
      let ln2 := insertAtByte ln col_b ch
      { buf with
        lines := buf.lines.set line ln2, cursor_y := line,
        cursor_x := min (col_b + csize ch) (strLen ln2), modified := true }
    else buf
  | .InsertLine line_num _ =>
    if line_num < buf.lines.length then
      { buf with
        lines := buf.lines.eraseIdx line_num,
        cursor_y := line_num - 1, cursor_x := 0, modified := true }
    else buf
  | .DeleteLine line_num content =>
    { buf with
      lines := buf.lines.insertIdx line_num content,
      cursor_y := line_num, cursor_x := 0, modified := true }
  | .ReplaceLine line_num old _ =>
    if line_num < buf.lines.length then
      CursorOps.set_cursor_x_char_boundary
        { buf with
          lines := buf.lines.set line_num old, cursor_y := line_num,
          cursor_x := min buf.cursor_x (strLen old), modified := true }
    else buf
  | .SplitLine line col =>
    if line + 1 < buf.lines.length then
      let next_line := buf.lines.getD (line + 1) []
      let trimmed := next_line.dropWhile isWs
      let lines1 := buf.lines.eraseIdx (line + 1)
      let ln := lines1.getD line []
      let col_b := CursorOps.byte_index_of_char ln col
      let ln2 := takeBytes ln col_b ++ trimmed
      { buf with
        lines := lines1.set line ln2, cursor_y := line,
        cursor_x := min col_b (strLen ln2), modified := true }
    else buf
  | .JoinLines line col deleted_content =>
    if line < buf.lines.length then
      let ln := buf.lines.getD line []
      let col_b := CursorOps.byte_index_of_char ln col
      let tail := dropBytes ln col_b
      let lines1 := (buf.lines.set line (takeBytes ln col_b)).insertIdx
        (line + 1) (deleted_content ++ tail)
      { buf with
        lines := lines1, cursor_y := line + 1, cursor_x := 0,
        modified := true }
    else buf
  | .InsertText start_line start_col _ _ text =>
    undo_insert_text buf start_line start_col text
  | .DeleteText start_line start_col _ _ text =>
    redo_insert_text buf start_line start_col text
  | .Batch actions => applyUndoListRev buf actions

/-- The reversed iteration of the `Batch` case of `apply_undo_action`. -/
def applyUndoListRev (buf : Buffer) : List EditorAction → Buffer
  | [] => buf
  | a :: rest => applyUndoAction (applyUndoListRev buf rest) a

end

mutual

/-- `EditorState::apply_redo_action`, acting on the active buffer. -/
def applyRedoAction (buf : Buffer) : EditorAction → Buffer
  | .InsertChar line col ch =>
    if line < buf.lines.length then
      let ln := buf.lines.getD line []
      let col_b := CursorOps.byte_index_of_char ln col
      let ln2 := insertAtByte ln col_b ch
      { buf with
        lines := buf.lines.set line ln2, cursor_y := line,
        cursor_x := min (col_b + csize ch) (strLen ln2), modified := true }
    else buf
  | .DeleteChar line col _ =>
    if line < buf.lines.length then
      let ln := buf.lines.getD line []
      let col_b := CursorOps.byte_index_of_char ln col
      if col_b < strLen ln then
        let e := CursorOps.next_char_boundary ln col_b
        { buf with
          lines := buf.lines.set line (drainBytes ln col_b e),
          cursor_y := line, cursor_x := col_b, modified := true }
      else buf
    else buf
  | .InsertLine line_num content =>
    { buf with
      lines := buf.lines.insertIdx line_num content,
      cursor_y := line_num, cursor_x := 0, modified := true }
  | .DeleteLine line_num _ =>
    if line_num < buf.lines.length then
      let lines1 := buf.lines.eraseIdx line_num
      { buf with
        lines := lines1,
        cursor_y := min line_num (lines1.length - 1), cursor_x := 0,
        modified := true }
    else buf
  | .ReplaceLine line_num _ new =>
    if line_num < buf.lines.length then
      CursorOps.set_cursor_x_char_boundary
        { buf with
          lines := buf.lines.set line_num new, cursor_y := line_num,
          cursor_x := min buf.cursor_x (strLen new), modified := true }
    else buf
  | .SplitLine line col =>
    if line < buf.lines.length then
      let ln := buf.lines.getD line []
      let col_b := CursorOps.byte_index_of_char ln col
      let remainder := dropBytes ln col_b
      let lines1 := (buf.lines.set line (takeBytes ln col_b)).insertIdx
        (line + 1) remainder
      { buf with
        lines := lines1, cursor_y := line + 1, cursor_x := 0,
        modified := true }
    else buf
  | .JoinLines line col _ =>
    if line + 1 < buf.lines.length then
      let next := buf.lines.getD (line + 1) []
      let joined := buf.lines.getD line [] ++ next
      let lines1 := (buf.lines.eraseIdx (line + 1)).set line joined
      let col_b := CursorOps.byte_index_of_char joined col
      { buf with
        lines := lines1, cursor_y := line,
        cursor_x := min col_b (strLen joined), modified := true }
    else buf
  | .InsertText start_line start_col _ _ text =>
    redo_insert_text buf start_line start_col text
  | .DeleteText start_line start_col _ _ text =>
    undo_insert_text buf start_line start_col text
  | .Batch actions => applyRedoList buf actions

/-- The forward iteration of the `Batch` case of `apply_redo_action`. -/
def applyRedoList (buf : Buffer) : List EditorAction → Buffer
  | [] => buf
  | a :: rest => applyRedoList (applyRedoAction buf a) rest

end

namespace EditorState

/-- `EditorState::apply_undo_action`. -/
def apply_undo_action (es : EditorState) (a : EditorAction) : EditorState :=
  es.setBuf (applyUndoAction es.buf a)

/-- `EditorState::apply_redo_action`. -/
def apply_redo_action (es : EditorState) (a : EditorAction) : EditorState :=
  es.setBuf (applyRedoAction es.buf a)

/-- `EditorState::undo`: pop the most recent action, apply its inverse, and
push it on the redo history. -/
def undo (es : EditorState) : EditorState × Bool :=
  match es.undo_stack.undo_stack with
  | [] => (es, false)
  | a :: rest =>
    let es1 := { es with undo_stack := { es.undo_stack with undo_stack := rest } }
    let es2 := es1.apply_undo_action a
    ({ es2 with
       undo_stack :=
        { es2.undo_stack with redo_stack := a :: es2.undo_stack.redo_stack } },
     true)

/-- `EditorState::redo`: pop from the redo history, re-apply the action's
forward form, and push it back directly on the undo history (the source
bypasses `UndoStack::push`, so the redo history is not cleared here). -/
def redo (es : EditorState) : EditorState × Bool :=
  match es.undo_stack.redo_stack with
  | [] => (es, false)
  | a :: rest =>
    let es1 := { es with undo_stack := { es.undo_stack with redo_stack := rest } }
    let es2 := es1.apply_redo_action a
    ({ es2 with
       undo_stack :=
        { es2.undo_stack with undo_stack := a :: es2.undo_stack.undo_stack } },
     true)

end EditorState

/-- The labeled load failures of `Buffer::from_file`. -/
inductive LoadError
  | tooLarge
  | binary
deriving DecidableEq

/-- The outcome of the filesystem reads that `Buffer::from_file` performs:
the file size from `fs::metadata`, and the decoded text from
`fs::read_to_string` (`none` when the bytes are not valid UTF-8). -/
structure FileData where
  size : Nat
  content : Option Str

/-- The line cache built from the loaded text: ropey's line iterator with
each line's trailing newline trimmed, which splits the text at every `\n`
keeping a trailing empty segment; empty text is replaced by a single
newline first. -/
def linesFromContent (content : Str) : List Str :=
  (if content = [] then ['\n'] else content).splitOn '\n'

/-- `Buffer::from_file` over the abstract filesystem outcome: reject files
over the 10MB cap, invalid UTF-8, and embedded NUL bytes. -/
def Buffer.from_file (path : Nat) (f : FileData) : Except LoadError Buffer :=
  if f.size > 10 * 1024 * 1024 then .error .tooLarge
  else
    match f.content with
    | none => .error .binary
    | some content =>
      if content.contains (Char.ofNat 0) then .error .binary
      else
        .ok { lines := linesFromContent content, cursor_x := 0, cursor_y := 0,
              scroll_offset := 0, file_path := some path, modified := false,
              selection_start := none, selection_end := none }

namespace EditorState

/-- `EditorState::open_file`: switch to an already-open buffer for the path,
or load the file; a fresh empty unmodified pathless single buffer is
replaced in place, otherwise the new buffer is appended and activated. -/
def open_file (es : EditorState) (path : Nat) (f : FileData) :
    EditorState × Except LoadError Unit :=
  match es.buffers.findIdx? (fun b => b.file_path == some path) with
  | some idx => ({ es with active_buffer := idx }, .ok ())
  | none =>
    match Buffer.from_file path f with
    | .error e => (es, .error e)
    | .ok buffer =>
      if es.buffers.length = 1 ∧ es.buf.lines.length = 1 ∧
          es.buf.lines.getD 0 [] = [] ∧ es.buf.file_path = none ∧
          es.buf.modified = false then
        ({ es with buffers := es.buffers.set 0 buffer }, .ok ())
      else
        ({ es with
           buffers := es.buffers ++ [buffer],
           active_buffer := es.buffers.length }, .ok ())

end EditorState

/-- A buffer with the given lines and cursor, as the editing operations
produce (no selection, no path). -/
def mkBuf (lines : List Str) (cx cy : Nat) : Buffer :=
  { lines := lines, cursor_x := cx, cursor_y := cy, scroll_offset := 0,
    file_path := none, modified := false, selection_start := none,
    selection_end := none }

/-- A fresh editor state (as `EditorState::new`) whose single buffer holds
the given lines and cursor. -/
def mkES (lines : List Str) (cx cy : Nat) : EditorState :=
  { buffers := [mkBuf lines cx cy],
    active_buffer := 0, tab_size := 4, auto_indent := true,
    search_query := [], search_matches := [], current_match := 0,
    undo_stack := { undo_stack := [], redo_stack := [], max_size := 1000 },
    yank_buffer := [], yank_type := YankType.Char, jump_stack := [] }

/-- Claim C1: the forward-then-inverse identity fails. For the recorded
primitive action `SplitLine 0 1` on the single-line buffer `"a b"`,
`apply_redo_action` followed by `apply_undo_action` yields `"ab"`: the
undo handler trims the leading whitespace of the rejoined suffix, so the
round trip is not an identity on the line content. -/
theorem splitLine_redo_undo_not_identity :
    (mkBuf [("a b").toList] 1 0).lines = [("a b").toList] ∧
    (applyUndoAction
        (applyRedoAction (mkBuf [("a b").toList] 1 0) (.SplitLine 0 1))
        (.SplitLine 0 1)).lines = [("ab").toList] ∧
    [("ab").toList] ≠ [("a b").toList] := by decide

/-- The state right after `insert_newline` (auto-indent on) on the buffer
`["foo:"]` with the cursor at the end of the line. -/
def c2_state1 : EditorState := (mkES [("foo:").toList] 4 0).insert_newline

/-- The state after then calling `undo()` and `redo()`. -/
def c2_state3 : EditorState := ((c2_state1.undo).1.redo).1

/-- Claim C2: `undo()` then `redo()` does not reproduce the state that held
immediately after the original action. After `insert_newline` with
auto-indent on `["foo:"]` (cursor at column 4) the buffer is
`["foo:", "    "]` with cursor `(1, 4)`; after `undo()` then `redo()` it is
`["foo:", ""]` with cursor `(1, 0)`: the undo handler discarded the
auto-indent, and the redo re-split the already-shortened line. -/
theorem undo_redo_not_roundtrip_after_insert_newline :
    c2_state1.buf.lines = [("foo:").toList, [' ', ' ', ' ', ' ']] ∧
    c2_state1.buf.cursor_y = 1 ∧ c2_state1.buf.cursor_x = 4 ∧
    c2_state3.buf.lines = [("foo:").toList, []] ∧
    c2_state3.buf.cursor_y = 1 ∧ c2_state3.buf.cursor_x = 0 := by decide

/-- A sequence of public `EditorState` operations from the valid buffer
`["a", "b", "c"]` (cursor on line 1): start a selection, extend it one line
down, delete two lines, then delete the (now stale) selection. -/
def c3_trace : EditorState × Bool :=
  (((((mkES [['a'], ['b'], ['c']] 0 1).start_selection).move_cursor_down).update_selection).delete_line).delete_line |>.delete_selection

/-- Claim C3: the cursor validity invariant is not preserved by every
sequence of public operations. After the sequence in `c3_trace`,
`delete_selection` replays stale selection anchors without clamping and
leaves `cursor_y = 1` on a one-line buffer, violating
`cursor_y < lines.len()`. -/
theorem cursor_invariant_violated_by_stale_selection :
    c3_trace.1.buf.lines.length = 1 ∧ c3_trace.1.buf.cursor_y = 1 := by decide

/-- The buffer `["éab", "xy"]` with a multi-line selection from byte column 3
of line 0 (after `"éa"`) to byte column 0 of line 1. -/
def c8_state0 : EditorState :=
  let es := mkES [("éab").toList, ("xy").toList] 0 0
  es.setBuf { es.buf with
    selection_start := some (0, 3), selection_end := some (1, 0) }

/-- The state after `delete_selection()` followed by `undo()`. -/
def c8_state2 : EditorState := (((c8_state0.delete_selection).1.undo).1)

/-- Claim C8: deleting a multi-line selection then undoing does not restore
the original lines. On `["éab", "xy"]` with the selection `(0,3)-(1,0)`,
the recorded `DeleteText` action stores the byte column 3, but the undo
handler reinterprets it as a character index (character 3 = byte 4 after
the two-byte `é`), reinserting the deleted text one byte too far right:
the result is `["éaxb", "y"]` instead of `["éab", "xy"]`. -/
theorem delete_selection_undo_not_restored :
    c8_state0.buf.lines = [("éab").toList, ("xy").toList] ∧
    (c8_state0.delete_selection).1.buf.lines = [("éaxy").toList] ∧
    c8_state2.buf.lines = [("éaxb").toList, ("y").toList] ∧
    [("éaxb").toList, ("y").toList] ≠ [("éab").toList, ("xy").toList] := by
  decide

/-- Claim C5 counterexample: on the buffer `["a:b"]` with the cursor at byte
column 2, `insert_newline` with auto-indent computes the indent from the
prefix `"a:"` kept on the line — which, trimmed, ends with a colon — and so
produces the new line `"    b"`; the claim prescribes the indent of the
original pre-split line `"a:b"` (namely none). -/
theorem calculate_indent_uses_prefix_not_original :
    leadingWs (((mkES [("a:b").toList] 2 0).insert_newline_with_indent
        true).buf.lines.getD 1 []) = [' ', ' ', ' ', ' '] ∧
    EditOps.calculate_indent (("a:b").toList) = [] := by decide

/-- The state produced by `search("a")` on the buffer `["aa"]` (two
overlapping occurrences, so k = 2), if the scan succeeds. -/
def c6_searched : Option EditorState := (mkES [("aa").toList] 0 0).search (("a").toList)

/-- Claim C6 counterexample: searching `"a"` in `["aa"]` yields k = 2 matches
`[(0,0), (0,1)]`, but `find_next` called k + 1 = 3 times leaves the current
match at index 1 (the second match), not back at the first: the index
advances by one per call modulo k, so k calls — not k + 1 — return to the
first match. -/
theorem find_next_k_plus_one_not_first :
    (c6_searched.map (fun s => s.search_matches)) = some [(0, 0), (0, 1)] ∧
    (c6_searched.map (fun s =>
      (EditorState.find_next (EditorState.find_next
        (EditorState.find_next s))).current_match)) = some 1 ∧ (1 : Nat) ≠ 0 := by
  decide

theorem csize_pos (c : Char) : 0 < csize c := Char.utf8Size_pos c

theorem strLen_cons (c : Char) (s : Str) : strLen (c :: s) = csize c + strLen s := by
  simp [strLen]

theorem strLen_append (t u : Str) : strLen (t ++ u) = strLen t + strLen u := by
  simp [strLen]

/-- A byte offset is a valid character boundary of a line exactly when
clamping it to a boundary leaves it unchanged. -/
def IsBoundary (s : Str) (b : Nat) : Prop :=
  CursorOps.clamp_to_char_boundary s b = b

instance (s : Str) (b : Nat) : Decidable (IsBoundary s b) :=
  inferInstanceAs (Decidable (_ = _))

theorem clamp_zero (s : Str) : CursorOps.clamp_to_char_boundary s 0 = 0 := by
  cases s with
  | nil => rfl
  | cons c s => simp [CursorOps.clamp_to_char_boundary, csize_pos c]

theorem clamp_le_strLen (s : Str) (b : Nat) :
    CursorOps.clamp_to_char_boundary s b ≤ strLen s := by
  induction s generalizing b with
  | nil => simp [CursorOps.clamp_to_char_boundary]
  | cons c s ih =>
    simp only [CursorOps.clamp_to_char_boundary, strLen_cons]
    split
    · omega
    · have := ih (b - csize c)
      omega

/-- A boundary offset splits the string into a prefix of that byte length
and a suffix. -/
theorem IsBoundary.split {s : Str} {b : Nat} (h : IsBoundary s b) :
    ∃ t u, s = t ++ u ∧ strLen t = b := by
  induction s generalizing b with
  | nil =>
    have h0 : (0 : Nat) = b := h
    exact ⟨[], [], rfl, h0⟩
  | cons c s ih =>
    by_cases hb : b < csize c
    · have h0 : (0 : Nat) = b := by
        have h1 : CursorOps.clamp_to_char_boundary (c :: s) b = b := h
        rw [CursorOps.clamp_to_char_boundary, if_pos hb] at h1
        exact h1
      exact ⟨[], c :: s, rfl, h0⟩
    · have h1 : CursorOps.clamp_to_char_boundary s (b - csize c) = b - csize c := by
        have h2 : CursorOps.clamp_to_char_boundary (c :: s) b = b := h
        rw [CursorOps.clamp_to_char_boundary, if_neg hb] at h2
        omega
      obtain ⟨t, u, hs, ht⟩ := ih h1
      exact ⟨c :: t, u, by simp [hs], by simp [strLen_cons, ht]; omega⟩

theorem clamp_append_exact (t u : Str) :
    CursorOps.clamp_to_char_boundary (t ++ u) (strLen t) = strLen t := by
  induction t with
  | nil => simpa [strLen] using clamp_zero u
  | cons c t ih =>
    have hpos := csize_pos c
    simp only [List.cons_append, CursorOps.clamp_to_char_boundary, strLen_cons,
      List.append_eq]
    rw [if_neg (by omega)]
    have h2 : csize c + strLen t - csize c = strLen t := by omega
    rw [h2, ih]

theorem takeBytes_append_exact (t u : Str) : takeBytes (t ++ u) (strLen t) = t := by
  induction t with
  | nil =>
    cases u with
    | nil => rfl
    | cons c u => simp [takeBytes, strLen, Nat.not_le.mpr (csize_pos c)]
  | cons c t ih =>
    have hpos := csize_pos c
    simp only [List.cons_append, takeBytes, strLen_cons, List.append_eq]
    rw [if_pos (by omega)]
    have h2 : csize c + strLen t - csize c = strLen t := by omega
    rw [h2, ih]

theorem dropBytes_append_exact (t u : Str) : dropBytes (t ++ u) (strLen t) = u := by
  induction t with
  | nil =>
    cases u with
    | nil => rfl
    | cons c u => simp [dropBytes, strLen, Nat.not_le.mpr (csize_pos c)]
  | cons c t ih =>
    have hpos := csize_pos c
    simp only [List.cons_append, dropBytes, strLen_cons, List.append_eq]
    rw [if_pos (by omega)]
    have h2 : csize c + strLen t - csize c = strLen t := by omega
    rw [h2, ih]

theorem prevAux_append (t : Str) (c : Char) (u : Str) :
    CursorOps.prevAux (t ++ c :: u) (strLen t + csize c) = strLen t := by
  induction t with
  | nil => simp [CursorOps.prevAux, strLen]
  | cons d t ih =>
    have hd := csize_pos d
    have hc := csize_pos c
    simp only [List.cons_append, CursorOps.prevAux, strLen_cons, List.append_eq]
    rw [if_neg (by omega)]
    have h2 : csize d + strLen t + csize c - csize d = strLen t + csize c := by omega
    rw [h2, ih]

theorem insertAtByte_split (t u : Str) (c : Char) :
    insertAtByte (t ++ u) (strLen t) c = t ++ c :: u := by
  rw [insertAtByte, takeBytes_append_exact, dropBytes_append_exact]

theorem clamp_after_insert (t u : Str) (c : Char) :
    CursorOps.clamp_to_char_boundary (t ++ c :: u) (strLen t + csize c) =
      strLen t + csize c := by
  have h := clamp_append_exact (t ++ [c]) u
  simpa [strLen_append, strLen] using h

theorem prev_after_insert (t u : Str) (c : Char) :
    CursorOps.prev_char_boundary (t ++ c :: u) (strLen t + csize c) = strLen t := by
  rw [CursorOps.prev_char_boundary, clamp_after_insert, prevAux_append]

theorem drain_after_insert (t u : Str) (c : Char) :
    drainBytes (t ++ c :: u) (strLen t) (strLen t + csize c) = t ++ u := by
  rw [drainBytes, takeBytes_append_exact]
  rw [show strLen t + csize c = strLen (t ++ [c]) by
    simp [strLen_append, strLen_cons, strLen]]
  rw [show t ++ c :: u = (t ++ [c]) ++ u by simp]
  rw [dropBytes_append_exact]

theorem getD_set_self {α : Type} (l : List α) (i : Nat) (a d : α)
    (h : i < l.length) : (l.set i a).getD i d = a := by
  simp [List.getD_eq_getElem?_getD, List.getElem?_set, h]

theorem set_getD_self {α : Type} (l : List α) (i : Nat) (d : α)
    (h : i < l.length) : l.set i (l.getD i d) = l := by
  apply List.ext_getElem?
  intro j
  rw [List.getElem?_set]
  by_cases hij : i = j
  · subst hij
    simp [h, List.getD_eq_getElem?_getD, List.getElem?_eq_getElem h]
  · simp [hij]

theorem buf_setBuf (es : EditorState) (b : Buffer)
    (h : es.active_buffer < es.buffers.length) : (es.setBuf b).buf = b := by
  simp [EditorState.setBuf, EditorState.buf, List.getD_eq_getElem?_getD,
    List.getElem?_set, h]

theorem insert_char_state (es : EditorState) (c : Char)
    (h1 : ¬ es.buf.cursor_y ≥ es.buf.lines.length)
    (h2 : ¬ CursorOps.clamp_to_char_boundary (es.buf.lines.getD es.buf.cursor_y [])
        es.buf.cursor_x > strLen (es.buf.lines.getD es.buf.cursor_y [])) :
    (es.insert_char c).buffers = es.buffers.set es.active_buffer { es.buf with
      lines := es.buf.lines.set es.buf.cursor_y
        (insertAtByte (es.buf.lines.getD es.buf.cursor_y [])
          (CursorOps.clamp_to_char_boundary (es.buf.lines.getD es.buf.cursor_y [])
            es.buf.cursor_x) c),
      cursor_x := CursorOps.clamp_to_char_boundary
          (es.buf.lines.getD es.buf.cursor_y []) es.buf.cursor_x + csize c,
      modified := true } ∧
    (es.insert_char c).active_buffer = es.active_buffer := by
  simp only [EditorState.insert_char, h1, h2, if_false, ite_false,
    EditorState.clear_search, EditorState.setBuf]
  exact ⟨trivial, trivial⟩

theorem backspace_state (es : EditorState)
    (h1 : ¬ es.buf.cursor_y ≥ es.buf.lines.length)
    (h2 : es.buf.cursor_x > 0)
    (h3 : ¬ CursorOps.prev_char_boundary (es.buf.lines.getD es.buf.cursor_y [])
        (CursorOps.clamp_to_char_boundary (es.buf.lines.getD es.buf.cursor_y [])
          es.buf.cursor_x) =
      CursorOps.clamp_to_char_boundary (es.buf.lines.getD es.buf.cursor_y [])
        es.buf.cursor_x) :
    (es.backspace).buffers = es.buffers.set es.active_buffer { es.buf with
      lines := es.buf.lines.set es.buf.cursor_y
        (drainBytes (es.buf.lines.getD es.buf.cursor_y [])
          (CursorOps.prev_char_boundary (es.buf.lines.getD es.buf.cursor_y [])
            (CursorOps.clamp_to_char_boundary (es.buf.lines.getD es.buf.cursor_y [])
              es.buf.cursor_x))
          (CursorOps.clamp_to_char_boundary (es.buf.lines.getD es.buf.cursor_y [])
            es.buf.cursor_x)),
      cursor_x := CursorOps.prev_char_boundary (es.buf.lines.getD es.buf.cursor_y [])
        (CursorOps.clamp_to_char_boundary (es.buf.lines.getD es.buf.cursor_y [])
          es.buf.cursor_x),
      modified := true } ∧
    (es.backspace).active_buffer = es.active_buffer := by
  simp only [EditorState.backspace, h1, h2, h3, if_false, ite_false, if_true,
    ite_true, EditorState.clear_search, EditorState.setBuf]
  exact ⟨trivial, trivial⟩

/-- Claim C4: for every line content, every insertion point on a valid
character boundary, and every character (multi-byte included),
`insert_char(c)` immediately followed by `backspace()` restores the original
line contents and the cursor position. -/
theorem insert_char_backspace_roundtrip (es : EditorState) (c : Char)
    (hact : es.active_buffer < es.buffers.length)
    (hy : es.buf.cursor_y < es.buf.lines.length)
    (hx : IsBoundary (es.buf.lines.getD es.buf.cursor_y []) es.buf.cursor_x) :
    ((es.insert_char c).backspace).buf.lines = es.buf.lines ∧
    ((es.insert_char c).backspace).buf.cursor_x = es.buf.cursor_x ∧
    ((es.insert_char c).backspace).buf.cursor_y = es.buf.cursor_y := by
  obtain ⟨t, u, hline, hlen⟩ := IsBoundary.split hx
  have hclamp : CursorOps.clamp_to_char_boundary
      (es.buf.lines.getD es.buf.cursor_y []) es.buf.cursor_x = es.buf.cursor_x := hx
  have hxle : es.buf.cursor_x ≤ strLen (es.buf.lines.getD es.buf.cursor_y []) := by
    rw [← hclamp]; exact clamp_le_strLen _ _
  have h1 : ¬ es.buf.cursor_y ≥ es.buf.lines.length := Nat.not_le.mpr hy
  have h2 : ¬ es.buf.cursor_x > strLen (es.buf.lines.getD es.buf.cursor_y []) := by
    omega
  have hinsAt : insertAtByte (es.buf.lines.getD es.buf.cursor_y [])
      es.buf.cursor_x c = t ++ c :: u := by
    rw [hline, ← hlen, insertAtByte_split]
  obtain ⟨hXbuffers, hXact⟩ := insert_char_state es c h1 (by rw [hclamp]; exact h2)
  rw [hclamp, hinsAt] at hXbuffers
  set X := es.insert_char c with hX
  set b2 : Buffer := { es.buf with
      lines := es.buf.lines.set es.buf.cursor_y (t ++ c :: u),
      cursor_x := es.buf.cursor_x + csize c, modified := true } with hb2
  have hXlen : X.buffers.length = es.buffers.length := by
    rw [hXbuffers, List.length_set]
  have hXbuf : X.buf = b2 := by
    rw [EditorState.buf, hXbuffers, hXact, getD_set_self _ _ _ _ hact]
  -- facts about the buffer seen by backspace
  have hby : X.buf.cursor_y = es.buf.cursor_y := by rw [hXbuf]
  have hblines : X.buf.lines = es.buf.lines.set es.buf.cursor_y (t ++ c :: u) := by
    rw [hXbuf]
  have hbx : X.buf.cursor_x = es.buf.cursor_x + csize c := by rw [hXbuf]
  have hline2 : X.buf.lines.getD X.buf.cursor_y [] = t ++ c :: u := by
    rw [hby, hblines, getD_set_self _ _ _ _ hy]
  have hk1 : ¬ X.buf.cursor_y ≥ X.buf.lines.length := by
    rw [hby, hblines, List.length_set]; exact h1
  have hk2 : X.buf.cursor_x > 0 := by
    rw [hbx]; have := csize_pos c; omega
  have hclamp2 : CursorOps.clamp_to_char_boundary
      (X.buf.lines.getD X.buf.cursor_y []) X.buf.cursor_x = X.buf.cursor_x := by
    rw [hline2, hbx, ← hlen, clamp_after_insert]
  have hprev : CursorOps.prev_char_boundary
      (X.buf.lines.getD X.buf.cursor_y []) X.buf.cursor_x = es.buf.cursor_x := by
    rw [hline2, hbx, ← hlen, prev_after_insert, hlen]
  have hk3 : ¬ CursorOps.prev_char_boundary (X.buf.lines.getD X.buf.cursor_y [])
      (CursorOps.clamp_to_char_boundary (X.buf.lines.getD X.buf.cursor_y [])
        X.buf.cursor_x) =
      CursorOps.clamp_to_char_boundary (X.buf.lines.getD X.buf.cursor_y [])
        X.buf.cursor_x := by
    rw [hclamp2, hprev, hbx]
    have := csize_pos c
    omega
  obtain ⟨hYbuffers, hYact⟩ := backspace_state X hk1 hk2 hk3
  rw [hclamp2, hprev] at hYbuffers
  have hdrain : drainBytes (X.buf.lines.getD X.buf.cursor_y [])
      es.buf.cursor_x X.buf.cursor_x = es.buf.lines.getD es.buf.cursor_y [] := by
    rw [hline2, hbx, ← hlen, drain_after_insert, hline]
  rw [hdrain] at hYbuffers
  have hYbuf : (X.backspace).buf = { X.buf with
      lines := X.buf.lines.set X.buf.cursor_y (es.buf.lines.getD es.buf.cursor_y []),
      cursor_x := es.buf.cursor_x, modified := true } := by
    rw [EditorState.buf, hYbuffers, hYact, hXact,
      getD_set_self _ _ _ _ (by rw [hXlen]; exact hact)]
  have hlines3 : X.buf.lines.set X.buf.cursor_y
      (es.buf.lines.getD es.buf.cursor_y []) = es.buf.lines := by
    rw [hby, hblines, List.set_set, set_getD_self _ _ _ hy]
  refine ⟨?_, ?_, ?_⟩
  · rw [hYbuf]; exact hlines3
  · rw [hYbuf]
  · rw [hYbuf]; exact hby

/-- Witness for C4 at a concrete input: buffer `["ab"]`, boundary cursor at
byte 1, inserting the two-byte character `é`. -/
theorem insert_char_backspace_roundtrip_witness :
    (mkES [("ab").toList] 1 0).active_buffer <
      (mkES [("ab").toList] 1 0).buffers.length ∧
    IsBoundary ((mkES [("ab").toList] 1 0).buf.lines.getD 0 []) 1 ∧
    (((mkES [("ab").toList] 1 0).insert_char 'é').backspace).buf.lines =
      (mkES [("ab").toList] 1 0).buf.lines :=
  ⟨by decide, by decide,
    (insert_char_backspace_roundtrip (mkES [("ab").toList] 1 0) 'é'
      (by decide) (by decide) (by decide)).1⟩

theorem clamp_cursor_x_lines (b : Buffer) :
    (CursorOps.clamp_cursor_x b).lines = b.lines := by
  rw [CursorOps.clamp_cursor_x]
  split <;> rfl

/-- Claim C7: `delete_line()` never reduces the line count below one; on a
single-line buffer it leaves exactly one empty line; and in every case the
removed text plus a trailing newline is copied to the clipboard's yank
buffer as a line-wise yank. -/
theorem delete_line_spec (es : EditorState)
    (hact : es.active_buffer < es.buffers.length)
    (hy : es.buf.cursor_y < es.buf.lines.length) :
    0 < (es.delete_line).buf.lines.length ∧
    (es.buf.lines.length = 1 → (es.delete_line).buf.lines = [[]]) ∧
    (es.delete_line).yank_buffer = es.buf.lines.getD es.buf.cursor_y [] ++ ['\n'] ∧
    (es.delete_line).yank_type = YankType.Line := by
  simp only [EditorState.buf] at hy ⊢
  by_cases hlen : (es.buffers.getD es.active_buffer Buffer.new).lines.length > 1
  · simp only [EditorState.delete_line, EditorState.buf, hlen, if_true, ite_true,
      EditorState.clear_search, EditorState.clipboard_copy]
    refine ⟨?_, fun h1 => absurd h1 (by omega), by trivial, by trivial⟩
    simp only [EditorState.setBuf]
    rw [getD_set_self _ _ _ _ (by simpa using hact), clamp_cursor_x_lines]
    simp only [List.length_eraseIdx, hy, if_true, ite_true]
    omega
  · have h1 : (es.buffers.getD es.active_buffer Buffer.new).lines.length = 1 := by
      omega
    have hy0 : (es.buffers.getD es.active_buffer Buffer.new).cursor_y = 0 := by
      omega
    obtain ⟨l, hl⟩ := List.length_eq_one.mp h1
    by_cases hc : (es.buffers.getD es.active_buffer Buffer.new).lines.getD 0 [] = []
    · simp only [EditorState.delete_line, EditorState.buf, hlen, if_false,
        ite_false, hc, if_true, ite_true, EditorState.clear_search,
        EditorState.clipboard_copy]
      refine ⟨?_, ?_, by rw [hy0, hc], by trivial⟩
      · simp only [EditorState.setBuf]
        rw [getD_set_self _ _ _ _ (by simpa using hact)]
        dsimp only
        rw [hl]
        simp
      · intro _
        simp only [EditorState.setBuf]
        rw [getD_set_self _ _ _ _ (by simpa using hact)]
        dsimp only
        rw [hl]
        simp
    · simp only [EditorState.delete_line, EditorState.buf, hlen, if_false,
        ite_false, hc, EditorState.clear_search, EditorState.clipboard_copy]
      refine ⟨?_, ?_, by rw [hy0], by trivial⟩
      · simp only [EditorState.setBuf]
        rw [getD_set_self _ _ _ _ (by simpa using hact)]
        dsimp only
        rw [hl]
        simp
      · intro _
        simp only [EditorState.setBuf]
        rw [getD_set_self _ _ _ _ (by simpa using hact)]
        dsimp only
        rw [hl]
        simp

/-- Witness for C7 at a concrete input: the single-line buffer `["hi"]`. -/
theorem delete_line_spec_witness :
    (mkES [("hi").toList] 0 0).active_buffer <
      (mkES [("hi").toList] 0 0).buffers.length ∧
    (0 < ((mkES [("hi").toList] 0 0).delete_line).buf.lines.length ∧
      ((mkES [("hi").toList] 0 0).buf.lines.length = 1 →
        ((mkES [("hi").toList] 0 0).delete_line).buf.lines = [[]]) ∧
      ((mkES [("hi").toList] 0 0).delete_line).yank_buffer =
        (mkES [("hi").toList] 0 0).buf.lines.getD
          (mkES [("hi").toList] 0 0).buf.cursor_y [] ++ ['\n'] ∧
      ((mkES [("hi").toList] 0 0).delete_line).yank_type = YankType.Line) :=
  ⟨by decide, delete_line_spec (mkES [("hi").toList] 0 0) (by decide) (by decide)⟩

theorem findIdx?_some_prop {α : Type} (p : α → Bool) :
    ∀ (l : List α) (k j : Nat), List.findIdx? p l k = some j →
      k ≤ j ∧ ∃ a, l[j - k]? = some a ∧ p a = true := by
  intro l
  induction l with
  | nil => intro k j h; simp [List.findIdx?] at h
  | cons x xs ih =>
    intro k j h
    rw [List.findIdx?_cons] at h
    by_cases hp : p x = true
    · rw [if_pos hp] at h
      have hj : k = j := by simpa using h
      subst hj
      exact ⟨Nat.le_refl k, x, by simp, hp⟩
    · rw [if_neg hp] at h
      obtain ⟨hk, a, ha, hpa⟩ := ih (k + 1) j h
      refine ⟨by omega, a, ?_, hpa⟩
      have hjk : j - k = (j - (k + 1)) + 1 := by omega
      rw [hjk]
      simpa using ha

/-- Claim C9: when the requested path is not already open and the load fails
(size over the 10MB cap, invalid UTF-8, or an embedded NUL byte),
`open_file` returns a labeled error and leaves the whole state — in
particular the buffers list and the active-buffer index — unchanged. -/
theorem open_file_error_leaves_state (es : EditorState) (path : Nat) (f : FileData)
    (hnew : es.buffers.findIdx? (fun b => b.file_path == some path) = none)
    (hbad : f.size > 10 * 1024 * 1024 ∨ f.content = none ∨
      ∃ content, f.content = some content ∧ content.contains (Char.ofNat 0) = true) :
    (es.open_file path f).1 = es ∧
    ∃ e, (es.open_file path f).2 = Except.error e := by
  have herr : ∃ e, Buffer.from_file path f = Except.error e := by
    rw [Buffer.from_file]
    by_cases hs : f.size > 10 * 1024 * 1024
    · exact ⟨.tooLarge, by rw [if_pos hs]⟩
    · rcases hbad with h | h | ⟨content, hc, hz⟩
      · exact absurd h hs
      · exact ⟨.binary, by rw [if_neg hs, h]⟩
      · refine ⟨.binary, ?_⟩
        have hz2 : Char.ofNat 0 ∈ content := by simpa using hz
        rw [if_neg hs, hc]
        simp [hz2]
  obtain ⟨e, he⟩ := herr
  simp only [EditorState.open_file, hnew, he]
  exact ⟨trivial, e, rfl⟩

/-- Witness for C9: a fresh state with no open path, and a file over the
10MB cap. -/
theorem open_file_error_leaves_state_witness :
    (mkES [['x']] 0 0).buffers.findIdx?
      (fun b => b.file_path == some 5) = none ∧
    (((mkES [['x']] 0 0).open_file 5
        { size := 11 * 1024 * 1024, content := some [] }).1 = mkES [['x']] 0 0 ∧
      ∃ e, ((mkES [['x']] 0 0).open_file 5
        { size := 11 * 1024 * 1024, content := some [] }).2 = Except.error e) :=
  ⟨by decide,
    open_file_error_leaves_state (mkES [['x']] 0 0) 5
      { size := 11 * 1024 * 1024, content := some [] } (by decide)
      (Or.inl (by decide))⟩

/-- Claim C10: calling `open_file` with a path that is already the
`file_path` of an open buffer creates no new buffer and modifies nothing:
the state is unchanged except that the active-buffer index moves to the
first buffer holding that path, and the call returns success. -/
theorem open_file_existing_buffer (es : EditorState) (path : Nat) (f : FileData)
    (idx : Nat)
    (hfound : es.buffers.findIdx? (fun b => b.file_path == some path) = some idx) :
    es.open_file path f = ({ es with active_buffer := idx }, Except.ok ()) ∧
    ∃ b, es.buffers[idx]? = some b ∧ b.file_path = some path := by
  constructor
  · simp only [EditorState.open_file, hfound]
  · obtain ⟨-, b, hb, hpb⟩ := findIdx?_some_prop _ es.buffers 0 idx hfound
    exact ⟨b, by simpa using hb, by simpa using hpb⟩

/-- A two-buffer state whose second buffer is associated with path 7. -/
def c10_state : EditorState :=
  { mkES [['x']] 0 0 with
    buffers := (mkES [['x']] 0 0).buffers ++
      [{ Buffer.new with file_path := some 7 }] }

/-- Witness for C10: opening path 7 switches to the already-open second
buffer and changes nothing else. -/
theorem open_file_existing_buffer_witness :
    c10_state.buffers.findIdx? (fun b => b.file_path == some 7) = some 1 ∧
    c10_state.open_file 7 { size := 0, content := some [] } =
      ({ c10_state with active_buffer := 1 }, Except.ok ()) :=
  ⟨by decide,
    (open_file_existing_buffer c10_state 7 { size := 0, content := some [] } 1
      (by decide)).1⟩

/-- The block-opening test of `EditOps::calculate_indent`: the line, trimmed
and lowercased, ends with `proc`, `macro` or a colon, or starts with
`.data` or `.code`. -/
def opensBlock (line : Str) : Bool :=
  List.isSuffixOf (("proc").toList) (lowerStr (trimStr line)) ||
  List.isSuffixOf (("macro").toList) (lowerStr (trimStr line)) ||
  List.isSuffixOf [':'] (lowerStr (trimStr line)) ||
  List.isPrefixOf ((".data").toList) (lowerStr (trimStr line)) ||
  List.isPrefixOf ((".code").toList) (lowerStr (trimStr line))

theorem calculate_indent_eq (line : Str) :
    EditOps.calculate_indent line =
      leadingWs line ++ (if opensBlock line then [' ', ' ', ' ', ' '] else []) := by
  simp only [EditOps.calculate_indent, opensBlock]
  split <;> simp_all

theorem insert_newline_state (es : EditorState) (auto_indent : Bool)
    (h1 : ¬ es.buf.cursor_y ≥ es.buf.lines.length) :
    (es.insert_newline_with_indent auto_indent).buffers =
      es.buffers.set es.active_buffer { es.buf with
        lines := (es.buf.lines.set es.buf.cursor_y
            (takeBytes (es.buf.lines.getD es.buf.cursor_y [])
              (CursorOps.clamp_to_char_boundary
                (es.buf.lines.getD es.buf.cursor_y []) es.buf.cursor_x))).insertIdx
          (es.buf.cursor_y + 1)
          ((if auto_indent then
              EditOps.calculate_indent
                (takeBytes (es.buf.lines.getD es.buf.cursor_y [])
                  (CursorOps.clamp_to_char_boundary
                    (es.buf.lines.getD es.buf.cursor_y []) es.buf.cursor_x))
            else []) ++
            dropBytes (es.buf.lines.getD es.buf.cursor_y [])
              (CursorOps.clamp_to_char_boundary
                (es.buf.lines.getD es.buf.cursor_y []) es.buf.cursor_x)),
        cursor_y := es.buf.cursor_y + 1,
        cursor_x := strLen (if auto_indent then
            EditOps.calculate_indent
              (takeBytes (es.buf.lines.getD es.buf.cursor_y [])
                (CursorOps.clamp_to_char_boundary
                  (es.buf.lines.getD es.buf.cursor_y []) es.buf.cursor_x))
          else []),
        modified := true } ∧
    (es.insert_newline_with_indent auto_indent).active_buffer = es.active_buffer := by
  simp only [EditorState.insert_newline_with_indent, h1, if_false, ite_false,
    EditorState.clear_search, EditorState.setBuf]
  exact ⟨trivial, trivial⟩

/-- Claim C5 (amended): with auto-indent set, `insert_newline` splits the
line at the (boundary-clamped) cursor and the new line below consists of a
computed indent followed by the split-off suffix; the indent is the leading
whitespace of the prefix retained on the original line, plus four spaces
exactly when that prefix — not the original pre-split line — trimmed and
lowercased, ends with `proc`, `macro` or a label colon, or starts with the
section markers `.data`/`.code`; the cursor lands at the end of that indent
on the new line. -/
theorem insert_newline_auto_indent_spec (es : EditorState)
    (hact : es.active_buffer < es.buffers.length)
    (hy : es.buf.cursor_y < es.buf.lines.length)
    (hx : IsBoundary (es.buf.lines.getD es.buf.cursor_y []) es.buf.cursor_x) :
    ((es.insert_newline_with_indent true).buf).lines =
      (es.buf.lines.set es.buf.cursor_y
          (takeBytes (es.buf.lines.getD es.buf.cursor_y []) es.buf.cursor_x)).insertIdx
        (es.buf.cursor_y + 1)
        ((leadingWs (takeBytes (es.buf.lines.getD es.buf.cursor_y []) es.buf.cursor_x) ++
            (if opensBlock (takeBytes (es.buf.lines.getD es.buf.cursor_y [])
                es.buf.cursor_x) then [' ', ' ', ' ', ' '] else [])) ++
          dropBytes (es.buf.lines.getD es.buf.cursor_y []) es.buf.cursor_x) ∧
    ((es.insert_newline_with_indent true).buf).cursor_y = es.buf.cursor_y + 1 ∧
    ((es.insert_newline_with_indent true).buf).cursor_x =
      strLen (leadingWs (takeBytes (es.buf.lines.getD es.buf.cursor_y [])
          es.buf.cursor_x) ++
        (if opensBlock (takeBytes (es.buf.lines.getD es.buf.cursor_y [])
            es.buf.cursor_x) then [' ', ' ', ' ', ' '] else [])) := by
  have hclamp : CursorOps.clamp_to_char_boundary
      (es.buf.lines.getD es.buf.cursor_y []) es.buf.cursor_x = es.buf.cursor_x := hx
  have h1 : ¬ es.buf.cursor_y ≥ es.buf.lines.length := Nat.not_le.mpr hy
  obtain ⟨hbuffers, hactive⟩ := insert_newline_state es true h1
  rw [hclamp] at hbuffers
  simp only [if_true, ite_true] at hbuffers
  rw [calculate_indent_eq] at hbuffers
  refine ⟨?_, ?_, ?_⟩ <;>
    rw [EditorState.buf, hbuffers, hactive, getD_set_self _ _ _ _ hact]

/-- Witness for C5 (amended) at a concrete input: buffer `["foo:"]`, cursor
at the end of the line; the kept prefix `"foo:"` triggers the extra
four-space indent and the cursor lands at `(1, 4)`. -/
theorem insert_newline_auto_indent_spec_witness :
    IsBoundary ((mkES [("foo:").toList] 4 0).buf.lines.getD 0 []) 4 ∧
    ((mkES [("foo:").toList] 4 0).insert_newline_with_indent true).buf.lines =
      ((mkES [("foo:").toList] 4 0).buf.lines.set 0
          (takeBytes ((mkES [("foo:").toList] 4 0).buf.lines.getD 0 []) 4)).insertIdx 1
        ((leadingWs (takeBytes ((mkES [("foo:").toList] 4 0).buf.lines.getD 0 []) 4) ++
            (if opensBlock (takeBytes ((mkES [("foo:").toList] 4 0).buf.lines.getD 0 []) 4)
              then [' ', ' ', ' ', ' '] else [])) ++
          dropBytes ((mkES [("foo:").toList] 4 0).buf.lines.getD 0 []) 4) :=
  ⟨by decide,
    (insert_newline_auto_indent_spec (mkES [("foo:").toList] 4 0)
      (by decide) (by decide) (by decide)).1⟩

/-- Single-byte (ASCII-range) text: every character occupies one byte, so
byte offsets and character offsets coincide. -/
def Ascii (s : Str) : Prop := ∀ c ∈ s, csize c = 1

instance (s : Str) : Decidable (Ascii s) := List.decidableBAll _ s

/-- All positions at which the query occurs in a line (overlapping
occurrences included), in increasing order. -/
def occList (lineLower qLower : Str) : List Nat :=
  (List.range (lineLower.length + 1)).filter
    (fun p => qLower.isPrefixOf (lineLower.drop p))

/-- The expected match list of a whole buffer: for each line, the
occurrences of the lowered query in the lowered line, ordered top-to-bottom,
left-to-right. -/
def canonicalGo (qLower : Str) : List Str → Nat → List (Nat × Nat)
  | [], _ => []
  | l :: rest, i =>
    (occList (lowerStr l) qLower).map (fun p => (i, p)) ++
      canonicalGo qLower rest (i + 1)

/-- The case-insensitive occurrence list of a query across a buffer. -/
def canonicalMatches (lines : List Str) (query : Str) : List (Nat × Nat) :=
  canonicalGo (lowerStr query) lines 0

theorem csize_lowerChar (c : Char) : csize (lowerChar c) = csize c := by
  have hall : ∀ q ∈ lowerPairs, csize q.1 = 1 ∧ csize q.2 = 1 := by decide
  rw [lowerChar]
  cases hf : lowerPairs.find? (fun p => p.1 == c) with
  | none => rfl
  | some p =>
    have hmem : p ∈ lowerPairs := List.mem_of_find?_eq_some hf
    have hc : p.1 = c := by simpa using List.find?_some hf
    rw [← hc, (hall p hmem).2, (hall p hmem).1]

theorem Ascii.strLen_eq {s : Str} (h : Ascii s) : strLen s = s.length := by
  induction s with
  | nil => rfl
  | cons c s ih =>
    rw [strLen_cons, h c (by simp), ih (fun d hd => h d (by simp [hd]))]
    simp [Nat.add_comm]

theorem Ascii.dropA {s : Str} (h : Ascii s) (n : Nat) : Ascii (s.drop n) :=
  fun c hc => h c (List.mem_of_mem_drop hc)

theorem Ascii.lower {s : Str} (h : Ascii s) : Ascii (lowerStr s) := by
  intro c hc
  obtain ⟨d, hd, hcd⟩ := List.mem_map.mp hc
  subst hcd
  rw [csize_lowerChar]
  exact h d hd

theorem lowerStr_length (s : Str) : (lowerStr s).length = s.length :=
  List.length_map s lowerChar

theorem byteDrop_ascii {s : Str} (h : Ascii s) (n : Nat) :
    byteDrop s n = if n ≤ s.length then some (s.drop n) else none := by
  induction s generalizing n with
  | nil =>
    cases n with
    | zero => rfl
    | succ m => rfl
  | cons c s ih =>
    cases n with
    | zero => rfl
    | succ m =>
      have hc : csize c = 1 := h c (by simp)
      rw [byteDrop, if_pos (by omega)]
      rw [show m + 1 - csize c = m by omega]
      rw [ih (fun d hd => h d (by simp [hd]))]
      simp [Nat.succ_le_succ_iff]

theorem strFind_none {q hay : Str} (h : strFind q hay = none) :
    ∀ p, q.isPrefixOf (hay.drop p) = false := by
  induction hay with
  | nil =>
    intro p
    rw [strFind] at h
    by_cases hq : q.isPrefixOf ([] : Str)
    · rw [if_pos hq] at h; exact absurd h (by simp)
    · rw [List.drop_nil]
      exact Bool.eq_false_iff.mpr hq
  | cons c rest ih =>
    intro p
    rw [strFind] at h
    by_cases hq : q.isPrefixOf (c :: rest)
    · rw [if_pos hq] at h; exact absurd h (by simp)
    · rw [if_neg hq] at h
      have hrest : strFind q rest = none := Option.map_eq_none.mp h
      cases p with
      | zero => exact Bool.eq_false_iff.mpr hq
      | succ p => rw [List.drop_succ_cons]; exact ih hrest p

theorem strFind_some {q hay : Str} (hA : Ascii hay) :
    ∀ {b : Nat}, strFind q hay = some b →
      b ≤ hay.length ∧ q.isPrefixOf (hay.drop b) = true ∧
        ∀ p, p < b → q.isPrefixOf (hay.drop p) = false := by
  induction hay with
  | nil =>
    intro b h
    rw [strFind] at h
    by_cases hq : q.isPrefixOf ([] : Str)
    · rw [if_pos hq] at h
      have hb : b = 0 := by simpa using h.symm
      subst hb
      exact ⟨by simp, by simpa using hq, fun p hp => absurd hp (by omega)⟩
    · rw [if_neg hq] at h; exact absurd h (by simp)
  | cons c rest ih =>
    intro b h
    rw [strFind] at h
    by_cases hq : q.isPrefixOf (c :: rest)
    · rw [if_pos hq] at h
      have hb : b = 0 := by simpa using h.symm
      subst hb
      exact ⟨by simp, by simpa using hq, fun p hp => absurd hp (by omega)⟩
    · rw [if_neg hq] at h
      obtain ⟨b2, hb2, hbeq⟩ := Option.map_eq_some'.mp h
      have hc : csize c = 1 := hA c (by simp)
      obtain ⟨hle, hpre, hmin⟩ := ih (fun d hd => hA d (by simp [hd])) hb2
      have hb : b = b2 + 1 := by omega
      subst hb
      refine ⟨by simp; omega, ?_, ?_⟩
      · rwa [List.drop_succ_cons]
      · intro p hp
        cases p with
        | zero => exact Bool.eq_false_iff.mpr hq
        | succ p => rw [List.drop_succ_cons]; exact hmin p (by omega)

theorem filter_ge_eq_cons {L : List Nat} (hs : List.Pairwise (· < ·) L)
    {q0 start : Nat} (hmem : q0 ∈ L) (hmin : ∀ r ∈ L, start ≤ r → q0 ≤ r)
    (hstart : start ≤ q0) :
    L.filter (fun p => start ≤ p) = q0 :: L.filter (fun p => q0 + 1 ≤ p) := by
  induction L with
  | nil => simp at hmem
  | cons a L ih =>
    rw [List.pairwise_cons] at hs
    rcases List.mem_cons.mp hmem with rfl | hmemL
    · rw [List.filter_cons, List.filter_cons]
      rw [if_pos (by simpa using hstart), if_neg (by simp)]
      congr 1
      have h1 : L.filter (fun p => start ≤ p) = L := List.filter_eq_self.mpr
        (fun b hb => by
          simpa using Nat.le_trans hstart (Nat.le_of_lt (hs.1 b hb)))
      have h2 : L.filter (fun p => q0 + 1 ≤ p) = L := List.filter_eq_self.mpr
        (fun b hb => by simpa using hs.1 b hb)
      rw [h1, h2]
    · have haq : a < q0 := hs.1 q0 hmemL
      have hna : ¬ start ≤ a := fun hsa =>
        absurd (hmin a (by simp) hsa) (by omega)
      rw [List.filter_cons, List.filter_cons, if_neg (by simpa using hna),
        if_neg (by simp; omega)]
      exact ih hs.2 hmemL (fun r hr hsr => hmin r (by simp [hr]) hsr)

theorem occList_pairwise (lineL q : Str) :
    List.Pairwise (· < ·) (occList lineL q) :=
  (List.pairwise_lt_range _).sublist (List.filter_sublist _)

theorem scanLineGo_spec {lineL q : Str} (hA : Ascii lineL) (hq : q ≠ []) :
    ∀ (fuel start : Nat), start ≤ lineL.length →
      lineL.length + 1 ≤ fuel + start →
      scanLineGo lineL q start fuel =
        some ((occList lineL q).filter (fun p => start ≤ p)) := by
  intro fuel
  induction fuel with
  | zero => intro start h1 h2; omega
  | succ fuel ih =>
    intro start h1 h2
    rw [scanLineGo, byteDrop_ascii hA, if_pos h1]
    cases hfind : strFind q (lineL.drop start) with
    | none =>
      simp only [hfind]
      have hno : ∀ p, start ≤ p → q.isPrefixOf (lineL.drop p) = false := by
        intro p hp
        have h3 := strFind_none hfind (p - start)
        rwa [List.drop_drop, show start + (p - start) = p by omega] at h3
      have hfil : (occList lineL q).filter (fun p => start ≤ p) = [] := by
        rw [List.filter_eq_nil_iff]
        intro a ha hsa
        obtain ⟨hmem, hpa⟩ := List.mem_filter.mp ha
        rw [hno a (by simpa using hsa)] at hpa
        exact absurd hpa (by simp)
      rw [hfil]
    | some pos =>
      simp only [hfind]
      obtain ⟨hple, hpre, hmin⟩ := strFind_some (hA.dropA start) hfind
      rw [List.length_drop] at hple
      have hpre2 : q.isPrefixOf (lineL.drop (start + pos)) = true := by
        rw [← List.drop_drop]
        exact hpre
      have hlt : start + pos < lineL.length := by
        rcases Nat.lt_or_ge (start + pos) lineL.length with h | h
        · exact h
        · exfalso
          rw [List.drop_eq_nil_of_le h] at hpre2
          cases q with
          | nil => exact hq rfl
          | cons a as => simp [List.isPrefixOf] at hpre2
      have hrec := ih (start + pos + 1) (by omega) (by omega)
      rw [hrec, Option.map_some']
      congr 1
      have hmem : start + pos ∈ occList lineL q := by
        rw [occList, List.mem_filter]
        exact ⟨List.mem_range.mpr (by omega), hpre2⟩
      have hminall : ∀ r ∈ occList lineL q, start ≤ r → start + pos ≤ r := by
        intro r hr hsr
        by_contra hcon
        obtain ⟨hmemr, hpr⟩ := List.mem_filter.mp hr
        have h4 := hmin (r - start) (by omega)
        rw [List.drop_drop, show start + (r - start) = r by omega] at h4
        rw [h4] at hpr
        exact absurd hpr (by simp)
      exact (filter_ge_eq_cons (occList_pairwise lineL q) hmem hminall
        (by omega)).symm

theorem scanLine_spec {l q : Str} (hA : Ascii l) (hq : q ≠ []) :
    scanLine (lowerStr l) q = some (occList (lowerStr l) q) := by
  have hAl : Ascii (lowerStr l) := hA.lower
  rw [scanLine, hAl.strLen_eq]
  rw [scanLineGo_spec hAl hq ((lowerStr l).length + 1) 0 (by omega) (by omega)]
  congr 1
  exact List.filter_eq_self.mpr (fun a _ => by simp)

theorem scanLines_spec {q : Str} (hq : q ≠ []) :
    ∀ (lines : List Str) (i : Nat), (∀ l ∈ lines, Ascii l) →
      scanLines q lines i = some (canonicalGo q lines i) := by
  intro lines
  induction lines with
  | nil => intro i _; rfl
  | cons l rest ih =>
    intro i h
    rw [scanLines]
    rw [scanLine_spec (h l (by simp)) hq]
    rw [ih (i + 1) (fun d hd => h d (by simp [hd]))]
    rfl

theorem mod_succ_step (n k : Nat) : (n % k + 1) % k = (n + 1) % k := by
  conv_rhs => rw [Nat.add_mod]
  rw [Nat.add_mod (n % k) 1 k, Nat.mod_mod]

theorem jump_fields (es : EditorState) :
    (es.jump_to_current_match).search_matches = es.search_matches ∧
    (es.jump_to_current_match).active_buffer = es.active_buffer ∧
    (es.jump_to_current_match).buffers.length = es.buffers.length ∧
    (es.jump_to_current_match).current_match = es.current_match := by
  rw [EditorState.jump_to_current_match]
  cases hm : es.search_matches[es.current_match]? with
  | none => exact ⟨rfl, rfl, rfl, rfl⟩
  | some m => exact ⟨rfl, rfl, by simp [EditorState.setBuf], rfl⟩

theorem find_next_fields (es : EditorState) (h : es.search_matches ≠ []) :
    (es.find_next).search_matches = es.search_matches ∧
    (es.find_next).active_buffer = es.active_buffer ∧
    (es.find_next).buffers.length = es.buffers.length ∧
    (es.find_next).current_match =
      (es.current_match + 1) % es.search_matches.length := by
  have hne : ¬ es.search_matches.isEmpty = true := by simpa using h
  rw [EditorState.find_next, if_neg hne]
  obtain ⟨j1, j2, j3, j4⟩ := jump_fields
    { es with current_match := (es.current_match + 1) % es.search_matches.length }
  exact ⟨j1, j2, j3, j4⟩

theorem find_next_iterate (es : EditorState) (h : es.search_matches ≠ []) :
    ∀ n, (EditorState.find_next^[n + 1] es).search_matches = es.search_matches ∧
      (EditorState.find_next^[n + 1] es).active_buffer = es.active_buffer ∧
      (EditorState.find_next^[n + 1] es).buffers.length = es.buffers.length ∧
      (EditorState.find_next^[n + 1] es).current_match =
        (es.current_match + n + 1) % es.search_matches.length := by
  intro n
  induction n with
  | zero =>
    simpa using find_next_fields es h
  | succ n ih =>
    obtain ⟨i1, i2, i3, i4⟩ := ih
    rw [show n + 1 + 1 = (n + 1) + 1 by rfl, Function.iterate_succ_apply']
    have hne2 : (EditorState.find_next^[n + 1] es).search_matches ≠ [] := by
      rw [i1]; exact h
    obtain ⟨f1, f2, f3, f4⟩ := find_next_fields _ hne2
    refine ⟨by rw [f1, i1], by rw [f2, i2], by rw [f3, i3], ?_⟩
    rw [f4, i4, i1, mod_succ_step]
    congr 2

theorem search_spec (es : EditorState) (q : Str)
    (hA : ∀ l ∈ es.buf.lines, Ascii l) (hq : q ≠ []) :
    es.search q = some { es with
      search_query := q,
      search_matches := canonicalMatches es.buf.lines q,
      current_match := 0 } := by
  have hql : lowerStr q ≠ [] := fun hc => hq (List.map_eq_nil_iff.mp hc)
  simp only [EditorState.search, EditorState.buf, hq, if_false, ite_false]
  simp only [EditorState.buf] at hA
  rw [scanLines_spec hql _ 0 hA]
  rfl

/-- Claim C6 (amended): for a non-empty query over a buffer of single-byte
text, `search` succeeds and its match list is exactly the case-insensitive
occurrence list — one match per occurrence start, overlapping occurrences
included, ordered top-to-bottom then left-to-right — and `find_next` called
k times, where k is the number of matches (not k + 1 as originally
claimed), returns the current match to the first match and relocates the
cursor to it. On multi-byte text the scan can resume one byte past a match
start onto a non-boundary offset, which aborts the search (the `none`
result of the embedded `search`). -/
theorem search_find_next_spec (es : EditorState) (q : Str)
    (hact : es.active_buffer < es.buffers.length)
    (hA : ∀ l ∈ es.buf.lines, Ascii l) (hq : q ≠ []) :
    ∃ es1, es.search q = some es1 ∧
      es1.search_matches = canonicalMatches es.buf.lines q ∧
      (canonicalMatches es.buf.lines q ≠ [] →
        (EditorState.find_next^[(canonicalMatches es.buf.lines q).length]
            es1).current_match = 0 ∧
        (EditorState.find_next^[(canonicalMatches es.buf.lines q).length]
            es1).buf.cursor_y =
          ((canonicalMatches es.buf.lines q).headD (0, 0)).1 ∧
        (EditorState.find_next^[(canonicalMatches es.buf.lines q).length]
            es1).buf.cursor_x =
          ((canonicalMatches es.buf.lines q).headD (0, 0)).2) := by
  refine ⟨_, search_spec es q hA hq, rfl, ?_⟩
  intro hne
  obtain ⟨m0, M2, hM⟩ := List.exists_cons_of_ne_nil hne
  set es1 : EditorState := { es with
    search_query := q,
    search_matches := canonicalMatches es.buf.lines q,
    current_match := 0 } with hes1
  set k : Nat := (canonicalMatches es.buf.lines q).length with hk
  have hk1 : 1 ≤ k := by rw [hk, hM]; simp
  have hes1m : es1.search_matches = canonicalMatches es.buf.lines q := rfl
  have hes1ne : es1.search_matches ≠ [] := by rw [hes1m]; exact hne
  -- the state after k - 1 steps
  have hP : (EditorState.find_next^[k - 1] es1).search_matches =
        es1.search_matches ∧
      (EditorState.find_next^[k - 1] es1).active_buffer = es1.active_buffer ∧
      (EditorState.find_next^[k - 1] es1).buffers.length =
        es1.buffers.length ∧
      (EditorState.find_next^[k - 1] es1).current_match = k - 1 := by
    rcases Nat.lt_or_ge k 2 with h2 | h2
    · have hk0 : k - 1 = 0 := by omega
      rw [hk0]
      exact ⟨rfl, rfl, rfl, rfl⟩
    · have hkm : k - 1 = (k - 2) + 1 := by omega
      obtain ⟨i1, i2, i3, i4⟩ := find_next_iterate es1 hes1ne (k - 2)
      rw [hkm]
      refine ⟨i1, i2, i3, ?_⟩
      rw [i4, hes1m, ← hk]
      have hc0 : es1.current_match = 0 := rfl
      rw [hc0]
      have h01 : 0 + (k - 2) + 1 = k - 1 := by omega
      rw [h01, Nat.mod_eq_of_lt (by omega)]
      omega
  obtain ⟨p1, p2, p3, p4⟩ := hP
  have hstep : EditorState.find_next^[k] es1 =
      (EditorState.find_next^[k - 1] es1).find_next := by
    conv_lhs => rw [show k = (k - 1) + 1 by omega]
    rw [Function.iterate_succ_apply']
  set esP := EditorState.find_next^[k - 1] es1 with hesP
  have hPne : ¬ esP.search_matches.isEmpty = true := by
    rw [p1]
    simpa using hes1ne
  have hPm : esP.search_matches = m0 :: M2 := by rw [p1, hes1m, hM]
  have hcur : (esP.current_match + 1) % esP.search_matches.length = 0 := by
    rw [p4, hPm, ← hM, ← hk, show k - 1 + 1 = k by omega, Nat.mod_self]
  rw [hstep, EditorState.find_next, if_neg hPne, hcur]
  rw [EditorState.jump_to_current_match]
  set es2 : EditorState := { esP with current_match := 0 } with hes2
  have hget : es2.search_matches[es2.current_match]? = some m0 := by
    show esP.search_matches[(0 : Nat)]? = some m0
    rw [hPm]
    simp
  rw [hget]
  have hact2 : es2.active_buffer < es2.buffers.length := by
    show esP.active_buffer < esP.buffers.length
    rw [p2, p3]
    exact hact
  rw [buf_setBuf _ _ hact2]
  refine ⟨rfl, ?_, ?_⟩
  · rw [hM]; rfl
  · rw [hM]; rfl

/-- Witness for C6 (amended) at a concrete input: query `"a"` on the buffer
`["aa"]` (two overlapping matches). -/
theorem search_find_next_spec_witness :
    (mkES [("aa").toList] 0 0).active_buffer <
      (mkES [("aa").toList] 0 0).buffers.length ∧
    (∀ l ∈ (mkES [("aa").toList] 0 0).buf.lines, Ascii l) ∧
    (("a").toList ≠ []) ∧
    ∃ es1, (mkES [("aa").toList] 0 0).search (("a").toList) = some es1 ∧
      es1.search_matches =
        canonicalMatches (mkES [("aa").toList] 0 0).buf.lines (("a").toList) ∧
      (canonicalMatches (mkES [("aa").toList] 0 0).buf.lines (("a").toList) ≠ [] →
        (EditorState.find_next^[(canonicalMatches
            (mkES [("aa").toList] 0 0).buf.lines (("a").toList)).length]
            es1).current_match = 0 ∧
        (EditorState.find_next^[(canonicalMatches
            (mkES [("aa").toList] 0 0).buf.lines (("a").toList)).length]
            es1).buf.cursor_y =
          ((canonicalMatches (mkES [("aa").toList] 0 0).buf.lines
            (("a").toList)).headD (0, 0)).1 ∧
        (EditorState.find_next^[(canonicalMatches
            (mkES [("aa").toList] 0 0).buf.lines (("a").toList)).length]
            es1).buf.cursor_x =
          ((canonicalMatches (mkES [("aa").toList] 0 0).buf.lines
            (("a").toList)).headD (0, 0)).2) :=
  ⟨by decide, by decide, by decide,
    search_find_next_spec (mkES [("aa").toList] 0 0) (("a").toList)
      (by decide) (by decide) (by decide)⟩
